import Mathlib

/-!
# A verification development of the 2048 rules engine

Shallow embedding of the sliding-tile merge puzzle engine
(`src/hello-word/2048.py`): tile model, board, the leftward
compact-and-merge primitive, the four directional transforms, the spawn
transform and the game controller.  Fallible Python code (constructors
that `raise`, `random.choice` on an empty sequence) is embedded in the
`Except String` monad; the two random draws used by the spawn transform
(the choice of the blank cell and the 4-versus-2 coin) are passed in as
explicit parameters `k : Nat` and `four : Bool`.
-/

namespace TwentyFortyEight

/-- A tile: `TilePower(n)` (an `int` subclass in the source) or the blank
tile `BLANK_TILE` (the empty-string singleton).  Python `==` between these
values is exactly structural equality of this sum type: two blanks are
equal, two powers are equal iff the exponents are, and an `int` never
equals a `str`. -/
inductive Tile where
  | blank : Tile
  | power (n : Nat) : Tile
deriving DecidableEq, Repr

/-- `TilePower.__new__`: validates `MIN_POWER <= x <= MAX_POWER`
(1 and 11), raising otherwise. -/
def mkTilePower (x : Nat) : Except String Tile :=
  if 1 ≤ x ∧ x ≤ 11 then Except.ok (Tile.power x)
  else Except.error ("Needs to be 1 <= x <= 11 but is " ++ toString x)

/-- The exponent carried by a tile; the blank tile, a `str` in the source,
never reaches an arithmetic context (it is filtered out first). -/
def powerOf : Tile → Nat
  | Tile.blank => 0
  | Tile.power n => n

/-- A board value: the tuple-of-tuples of tiles underlying `Board`. -/
abbrev Board := List (List Tile)

/-- `Board.__new__`: validates the shape (`HEIGHT` rows of `WIDTH` cells,
both 4), raising on the first offending dimension. -/
def mkBoard (x : Board) : Except String Board :=
  if x.length ≠ 4 then
    Except.error ("Height needs to be 4 but is " ++ toString x.length ++ ".")
  else
    match x.find? (fun row => row.length ≠ 4) with
    | some row =>
        Except.error ("Width needs to be 4 but is " ++ toString row.length ++ ".")
    | none => Except.ok x

/-- `Board.__eq__`: flatten both operands in row-major order, zip the two
cell sequences (truncating to the shorter) and require Python `==` on each
pair. -/
def boardEq (a b : Board) : Bool :=
  ((a.flatten).zip (b.flatten)).all (fun p => decide (p.1 = p.2))

/-- The `while` loop of `LeftTransform.transform.transform_row`, scanning
the non-blank tiles left to right: a tile equal to its immediate successor
is replaced together with it by `TilePower(curr_tile + 1)` (which can
raise) and both are skipped; otherwise the tile is kept. -/
def mergeScan : List Tile → Except String (List Tile)
  | [] => Except.ok []
  | [t] => Except.ok [t]
  | t :: u :: rest =>
    if t = u then do
      let m ← mkTilePower (powerOf t + 1)
      let tail ← mergeScan rest
      Except.ok (m :: tail)
    else do
      let tail ← mergeScan (u :: rest)
      Except.ok (t :: tail)

/-- `transform_row`: keep the non-blank tiles in order, run the merge
scan, and pad on the right with blanks back to the row's original
length. -/
def transformRow (row : List Tile) : Except String (List Tile) := do
  let nonblank := row.filter (fun t => !decide (t = Tile.blank))
  let merged ← mergeScan nonblank
  Except.ok (merged ++ List.replicate (row.length - merged.length) Tile.blank)

/-- The list comprehension `[transform_row(row) for row in board]` in the
exception monad: rows are transformed left to right and the first raise
propagates. -/
def mapRows (f : List Tile → Except String (List Tile)) :
    Board → Except String Board
  | [] => Except.ok []
  | r :: rs => do
    let r' ← f r
    let rs' ← mapRows f rs
    Except.ok (r' :: rs')

/-- `LeftTransform.transform`: transform every row, then rebuild a
(validated) `Board`. -/
def leftTransform (b : Board) : Except String Board := do
  let rows ← mapRows transformRow b
  mkBoard rows

/-- The row reversal `[row[::-1] for row in board]` inside
`flipLeftRight`. -/
def flipCells (b : Board) : Board := b.map List.reverse

/-- `flipLeftRight`: reverse each row and rebuild a validated `Board`. -/
def flipLeftRight (b : Board) : Except String Board := mkBoard (flipCells b)

/-- The shortest row length, i.e. the number of tuples `zip(*rows)`
produces. -/
def minRowLen : Board → Nat
  | [] => 0
  | r :: rs => rs.foldl (fun m row => min m row.length) r.length

/-- The cell grid `list(zip(*[row for row in board]))` inside `transpose`:
the `i`-th output row collects the `i`-th cell of every input row, for
`i` below every row's length. -/
def transposeCells (b : Board) : Board :=
  (List.range (minRowLen b)).map (fun i => b.map (fun r => r.getD i Tile.blank))

/-- `transpose`: zip the rows together and rebuild a validated `Board`. -/
def transposeB (b : Board) : Except String Board := mkBoard (transposeCells b)

/-- `RightTransform.transform`: flip, left-transform, flip. -/
def rightTransform (b : Board) : Except String Board := do
  let b1 ← flipLeftRight b
  let b2 ← leftTransform b1
  flipLeftRight b2

/-- `UpTransform.transform`: transpose, left-transform, transpose. -/
def upTransform (b : Board) : Except String Board := do
  let b1 ← transposeB b
  let b2 ← leftTransform b1
  transposeB b2

/-- `DownTransform.transform`: `flipLeftRight(transpose(board))`,
left-transform, `transpose(flipLeftRight(board))`. -/
def downTransform (b : Board) : Except String Board := do
  let b1 ← transposeB b
  let b2 ← flipLeftRight b1
  let b3 ← leftTransform b2
  let b4 ← flipLeftRight b3
  transposeB b4

/-- `SpawnTransform.__get_blank_locations`: the `(j, i)` coordinates, in
row-major order, of every cell that equals `BLANK_TILE`. -/
def blankLocations (board : Board) : List (Nat × Nat) :=
  (board.enum.map (fun jr =>
    jr.2.enum.filterMap (fun it =>
      if it.2 = Tile.blank then some (jr.1, it.1) else none))).flatten

/-- `random.choice(seq)`: returns `seq[i]` for a random valid index `i`
(modelled by `k % len`); on an empty sequence the indexing itself raises
`IndexError`. -/
def choice {α : Type} (l : List α) (k : Nat) : Except String α :=
  match l with
  | [] => Except.error "IndexError: Cannot choose from an empty sequence"
  | x :: xs => Except.ok ((x :: xs).getD (k % (x :: xs).length) x)

/-- `SpawnTransform.__get_new_tile`: `TilePower(2)` when the random draw
falls under `CHANCE_OF_4_SPAWN`, else `TilePower(1)`. -/
def getNewTile (four : Bool) : Tile :=
  if four then Tile.power 2 else Tile.power 1

/-- The mutation `tmp_board[spawn_j][spawn_i] = tile` on the copied
grid. -/
def setCell (b : Board) (j i : Nat) (t : Tile) : Board :=
  b.set j ((b.getD j []).set i t)

/-- `SpawnTransform.transform`: pick a random blank location, write the
new tile there, rebuild a validated `Board`. -/
def spawnTransform (b : Board) (k : Nat) (four : Bool) : Except String Board := do
  let loc ← choice (blankLocations b) k
  mkBoard (setCell b loc.1 loc.2 (getNewTile four))

/-- `Game.has_succeeded`: some cell equals `TilePower(MAX_POWER)`. -/
def hasSucceeded (b : Board) : Bool :=
  b.any (fun row => row.any (fun x => decide (x = Tile.power 11)))

/-- `Game.has_failed`: no cell equals `BLANK_TILE`. -/
def hasFailed (b : Board) : Bool :=
  !(b.any (fun row => row.any (fun x => decide (x = Tile.blank))))

/-- `Game.has_ended`. -/
def hasEnded (b : Board) : Bool := hasSucceeded b || hasFailed b

/-- The `Direction` enumeration. -/
inductive Direction where
  | up | down | left | right
deriving DecidableEq, Repr

/-- The `transforms` dictionary in `Game.swipe`, with the default
transform instances. -/
def dirTransform : Direction → Board → Except String Board
  | Direction.up => upTransform
  | Direction.down => downTransform
  | Direction.left => leftTransform
  | Direction.right => rightTransform

/-- The game controller's state: the current board (`self._board`).  The
injectable transform fields always hold the default instances here. -/
structure Game where
  board : Board
deriving DecidableEq, Repr

/-- `Game.swipe`: raise if the game has ended; otherwise transform the
current board in the given direction, and adopt the spawn of the result
exactly when it differs (`__ne__`, i.e. negated `boardEq`) from the
current board.  An `Except.error` result leaves the caller's `Game` value
untouched, matching the Python `raise` happening before any assignment to
`self._board`. -/
def swipe (g : Game) (d : Direction) (k : Nat) (four : Bool) :
    Except String Game :=
  if hasEnded g.board then Except.error "Game has already ended"
  else do
    let next ← dirTransform d g.board
    if boardEq next g.board then Except.ok g
    else do
      let b ← spawnTransform next k four
      Except.ok (Game.mk b)

/-! ## Vocabulary used to state the claims -/

/-- The non-blank subsequence of a row, as `transform_row` computes it. -/
def nonblankOf (row : List Tile) : List Tile :=
  row.filter (fun t => !decide (t = Tile.blank))

/-- A tile is well formed: blank, or a power in `[1, 11]`. -/
def tileWF : Tile → Bool
  | Tile.blank => true
  | Tile.power n => decide (1 ≤ n) && decide (n ≤ 11)

/-- The board has exactly 4 rows of exactly 4 cells. -/
def boardShape (b : Board) : Bool :=
  decide (b.length = 4) && b.all (fun r => decide (r.length = 4))

/-- Well-formed board: right shape, every tile well formed. -/
def boardWF (b : Board) : Bool :=
  boardShape b && b.all (fun r => r.all tileWF)

/-- No two adjacent elements of the list are equal. -/
def noAdjEq : List Tile → Bool
  | t :: u :: rest => decide (t ≠ u) && noAdjEq (u :: rest)
  | _ => true

/-- No two adjacent elements are both the power-11 tile (so no merge of
the list ever constructs a power-12 tile). -/
def noMerge11 : List Tile → Bool
  | t :: u :: rest =>
      !(decide (t = u) && decide (t = Tile.power 11)) && noMerge11 (u :: rest)
  | _ => true

/-- The number of non-blank cells of a board. -/
def nonBlankCount (b : Board) : Nat :=
  (b.flatten.filter (fun t => !decide (t = Tile.blank))).length

/-- The cell at row `j`, column `i` (blank when out of range). -/
def cellAt (b : Board) (j i : Nat) : Tile :=
  (b.getD j []).getD i Tile.blank

/-! ## Definitions written from the specification's words

These are the second halves of the refinement claims: procedures stated
by the specification, to be compared with the source functions above. -/

/-- Spec, step (2) of the leftward primitive: scan left to right; when a
tile has the same power as its immediate successor, replace the pair with
one tile of power `n + 1` and skip both.  The spec's wording constructs
the merged tile unconditionally. -/
def specScan : List Tile → List Tile
  | [] => []
  | [t] => [t]
  | t :: u :: rest =>
    if t = u then Tile.power (powerOf t + 1) :: specScan rest
    else t :: specScan (u :: rest)

/-- Spec, the whole leftward primitive on one row: extract the non-empty
tiles in order, scan-merge, pad on the right with `Empty` to the original
width. -/
def specCompactRow (row : List Tile) : List Tile :=
  let merged := specScan (nonblankOf row)
  merged ++ List.replicate (row.length - merged.length) Tile.blank

/-- Spec: `reflectHorizontal(board)` — reverse each row. -/
def specReflectH (b : Board) : Board := b.map List.reverse

/-- Spec: `transpose(board)` — swap rows and columns of the 4×4 grid:
output cell `(i, j)` is input cell `(j, i)`. -/
def specTranspose (b : Board) : Board :=
  (List.range 4).map (fun i => (List.range 4).map (fun j => cellAt b j i))

/-- Spec: tile equality — both empty, or both powers with the same
exponent; a blank and a power never compare equal. -/
def specTileEq : Tile → Tile → Bool
  | Tile.blank, Tile.blank => true
  | Tile.power m, Tile.power n => decide (m = n)
  | _, _ => false

/-! ## Basic lemmas -/

theorem ok_bind {α β : Type} (a : α) (f : α → Except String β) :
    (Except.ok a >>= f : Except String β) = f a := rfl

theorem error_bind {α β : Type} (e : String) (f : α → Except String β) :
    (Except.error e >>= f : Except String β) = Except.error e := rfl

theorem specScan_two_eq (u : Tile) (rest : List Tile) :
    specScan (u :: u :: rest) = Tile.power (powerOf u + 1) :: specScan rest := by
  simp [specScan]

theorem specScan_two_ne {t u : Tile} (h : t ≠ u) (rest : List Tile) :
    specScan (t :: u :: rest) = t :: specScan (u :: rest) := by
  simp [specScan, h]

theorem mergeScan_two_eq (u : Tile) (rest : List Tile) :
    mergeScan (u :: u :: rest) = (do
      let m ← mkTilePower (powerOf u + 1)
      let tail ← mergeScan rest
      Except.ok (m :: tail)) := by
  simp [mergeScan]

theorem mergeScan_two_ne {t u : Tile} (h : t ≠ u) (rest : List Tile) :
    mergeScan (t :: u :: rest) = (do
      let tail ← mergeScan (u :: rest)
      Except.ok (t :: tail)) := by
  simp [mergeScan, h]

theorem noMerge11_tail {t : Tile} {l : List Tile}
    (h : noMerge11 (t :: l) = true) : noMerge11 l = true := by
  cases l with
  | nil => rfl
  | cons u rest => simp [noMerge11] at h ⊢; exact h.2

theorem noAdjEq_tail {t : Tile} {l : List Tile}
    (h : noAdjEq (t :: l) = true) : noAdjEq l = true := by
  cases l with
  | nil => rfl
  | cons u rest => simp [noAdjEq] at h ⊢; exact h.2

theorem specScan_length_le (l : List Tile) : (specScan l).length ≤ l.length := by
  induction l using specScan.induct with
  | case1 => simp [specScan]
  | case2 t => simp [specScan]
  | case3 u rest ih => rw [specScan_two_eq]; simp; omega
  | case4 t u rest h ih => rw [specScan_two_ne h]; simp at ih ⊢; omega

/-- The merge scan agrees with the spec's scan whenever every tile the
spec's scan produces has a representable power. -/
theorem mergeScan_eq_spec (l : List Tile)
    (h : ∀ t ∈ specScan l, powerOf t ≤ 11) :
    mergeScan l = Except.ok (specScan l) := by
  induction l using mergeScan.induct with
  | case1 => rfl
  | case2 t => rfl
  | case3 u rest ih =>
    rw [mergeScan_two_eq, specScan_two_eq]
    rw [specScan_two_eq] at h
    have h1 : powerOf u + 1 ≤ 11 := by
      have := h (Tile.power (powerOf u + 1)) (by simp)
      simpa [powerOf] using this
    have h2 := ih (fun t ht => h t (by simp [ht]))
    simp [mkTilePower, h1, h2, ok_bind]
  | case4 t u rest hne ih =>
    rw [mergeScan_two_ne hne, specScan_two_ne hne]
    rw [specScan_two_ne hne] at h
    have h2 := ih (fun x hx => h x (by simp [hx]))
    simp [h2, ok_bind]

/-- Under well-formed tiles and no adjacent power-11 pair, every tile the
spec's scan produces has power at most 11. -/
theorem specScan_powers_le (l : List Tile) (hwf : ∀ t ∈ l, tileWF t = true)
    (hm : noMerge11 l = true) :
    ∀ t ∈ specScan l, powerOf t ≤ 11 := by
  induction l using specScan.induct with
  | case1 => simp [specScan]
  | case2 t =>
    intro x hx
    simp [specScan] at hx
    subst hx
    have := hwf x (by simp)
    cases x with
    | blank => simp [powerOf]
    | power n => simp [tileWF] at this; simp [powerOf]; omega
  | case3 u rest ih =>
    rw [specScan_two_eq]
    intro x hx
    rcases List.mem_cons.mp hx with h | h
    · subst h
      have hu := hwf u (by simp)
      have h11 : u ≠ Tile.power 11 := by
        intro he
        simp [noMerge11, he] at hm
      cases u with
      | blank => simp [powerOf]
      | power n =>
        simp [tileWF] at hu
        have : n ≠ 11 := fun he => h11 (by rw [he])
        simp [powerOf]; omega
    · exact ih (fun t ht => hwf t (by simp [ht]))
        (noMerge11_tail (noMerge11_tail hm)) x h
  | case4 t u rest hne ih =>
    rw [specScan_two_ne hne]
    intro x hx
    rcases List.mem_cons.mp hx with h | h
    · subst h
      have hu := hwf x (by simp)
      cases x with
      | blank => simp [powerOf]
      | power n => simp [tileWF] at hu; simp [powerOf]; omega
    · exact ih (fun y hy => hwf y (by simp [hy])) (noMerge11_tail hm) x h

/-- A list free of adjacent equal tiles is fixed by the merge scan. -/
theorem mergeScan_of_noAdjEq (l : List Tile) (h : noAdjEq l = true) :
    mergeScan l = Except.ok l := by
  induction l using mergeScan.induct with
  | case1 => rfl
  | case2 t => rfl
  | case3 u rest ih => simp [noAdjEq] at h
  | case4 t u rest hne ih =>
    rw [mergeScan_two_ne hne]
    simp [ih (noAdjEq_tail h), ok_bind]

/-! ## Row and board transformation lemmas -/

/-- The spec's compacted row always has the row's original length. -/
theorem specCompactRow_length (row : List Tile) :
    (specCompactRow row).length = row.length := by
  have h1 : (specScan (nonblankOf row)).length ≤ row.length :=
    le_trans (specScan_length_le _) (by simpa [nonblankOf] using List.length_filter_le _ row)
  simp [specCompactRow]
  omega

/-- `transform_row` agrees with the spec's compact-and-merge whenever the
spec's result is representable. -/
theorem transformRow_eq_spec (row : List Tile)
    (h : ∀ t ∈ specScan (nonblankOf row), powerOf t ≤ 11) :
    transformRow row = Except.ok (specCompactRow row) := by
  have hs : mergeScan (nonblankOf row) = Except.ok (specScan (nonblankOf row)) :=
    mergeScan_eq_spec _ h
  simp only [transformRow, nonblankOf] at *
  rw [hs, ok_bind]
  simp [specCompactRow, nonblankOf]

/-- A full row with no adjacent equal tiles is fixed by `transform_row`. -/
theorem transformRow_fixed (row : List Tile)
    (hfull : ∀ t ∈ row, t ≠ Tile.blank) (hadj : noAdjEq row = true) :
    transformRow row = Except.ok row := by
  have hnb : row.filter (fun t => !decide (t = Tile.blank)) = row :=
    List.filter_eq_self.mpr (fun t ht => by simp [hfull t ht])
  simp only [transformRow, hnb, mergeScan_of_noAdjEq row hadj, ok_bind]
  simp

/-- `mapRows` on rowwise-successful input. -/
theorem mapRows_ok (f : List Tile → Except String (List Tile))
    (g : List Tile → List Tile) (b : Board)
    (h : ∀ r ∈ b, f r = Except.ok (g r)) :
    mapRows f b = Except.ok (b.map g) := by
  induction b with
  | nil => rfl
  | cons r rs ih =>
    simp only [mapRows, h r (by simp), ok_bind,
      ih (fun r hr => h r (by simp [hr])), List.map_cons]

/-- The board constructor succeeds on a 4×4 grid and returns it. -/
theorem mkBoard_ok (x : Board) (h : boardShape x = true) :
    mkBoard x = Except.ok x := by
  simp [boardShape] at h
  have hf : x.find? (fun row => row.length ≠ 4) = none :=
    List.find?_eq_none.mpr (fun r hr => by simp [h.2 r hr])
  unfold mkBoard
  rw [if_neg (by simp [h.1]), hf]

/-- The board constructor only ever returns its (4×4) input. -/
theorem mkBoard_eq_ok {x y : Board} (h : mkBoard x = Except.ok y) :
    y = x ∧ boardShape x = true := by
  by_cases h4 : x.length = 4
  · rw [mkBoard, if_neg (by simp [h4])] at h
    rcases hf : x.find? (fun row => row.length ≠ 4) with _ | row
    · rw [hf] at h
      refine ⟨by injection h with h'; exact h'.symm, ?_⟩
      simp [boardShape, h4]
      intro r hr
      have := List.find?_eq_none.mp hf r hr
      simpa using this
    · rw [hf] at h
      exact absurd h (by simp)
  · rw [mkBoard, if_pos (by simp [h4])] at h
    exact absurd h (by simp)

/-- A list of length 4 is a literal 4-element list. -/
theorem len4_destruct {α : Type} (l : List α) (h : l.length = 4) :
    ∃ a b c d, l = [a, b, c, d] := by
  rcases l with _ | ⟨a, _ | ⟨b, _ | ⟨c, _ | ⟨d, _ | ⟨e, t⟩⟩⟩⟩⟩
  · simp at h
  · simp at h
  · simp at h
  · simp at h
  · exact ⟨a, b, c, d, rfl⟩
  · simp at h

/-- A 4×4 board is a literal 4-row grid of length-4 rows. -/
theorem shape_destruct (b : Board) (h : boardShape b = true) :
    ∃ r0 r1 r2 r3, b = [r0, r1, r2, r3] ∧
      r0.length = 4 ∧ r1.length = 4 ∧ r2.length = 4 ∧ r3.length = 4 := by
  simp [boardShape] at h
  obtain ⟨r0, r1, r2, r3, rfl⟩ := len4_destruct b h.1
  exact ⟨r0, r1, r2, r3, rfl,
    h.2 r0 (by simp), h.2 r1 (by simp), h.2 r2 (by simp), h.2 r3 (by simp)⟩

/-- `noAdjEq` as a `Chain'`. -/
theorem noAdjEq_iff_chain (l : List Tile) :
    noAdjEq l = true ↔ List.Chain' (fun t u => t ≠ u) l := by
  induction l with
  | nil => simp [noAdjEq]
  | cons t rest ih =>
    cases rest with
    | nil => simp [noAdjEq]
    | cons u rest' =>
      rw [List.chain'_cons, ← ih]
      simp [noAdjEq]

/-- `noMerge11` as a `Chain'`. -/
theorem noMerge11_iff_chain (l : List Tile) :
    noMerge11 l = true ↔
      List.Chain' (fun t u => ¬(t = u ∧ t = Tile.power 11)) l := by
  induction l with
  | nil => simp [noMerge11]
  | cons t rest ih =>
    cases rest with
    | nil => simp [noMerge11]
    | cons u rest' =>
      rw [List.chain'_cons, ← ih]
      simp [noMerge11]
      tauto

theorem noAdjEq_reverse {l : List Tile} (h : noAdjEq l = true) :
    noAdjEq l.reverse = true := by
  rw [noAdjEq_iff_chain] at h ⊢
  rw [List.chain'_reverse]
  exact h.imp (fun a b hne he => hne he.symm)

theorem noMerge11_reverse {l : List Tile} (h : noMerge11 l = true) :
    noMerge11 l.reverse = true := by
  rw [noMerge11_iff_chain] at h ⊢
  rw [List.chain'_reverse]
  refine h.imp ?_
  intro a b hab
  simp only [flip]
  rintro ⟨h1, h2⟩
  exact hab ⟨h1.symm, h1.symm.trans h2⟩

/-! ## Shape and well-formedness transport -/

theorem boardShape_iff (b : Board) :
    boardShape b = true ↔ b.length = 4 ∧ ∀ r ∈ b, r.length = 4 := by
  simp [boardShape]

theorem boardShape_map_compact (b : Board) (hs : boardShape b = true) :
    boardShape (b.map specCompactRow) = true := by
  rw [boardShape_iff] at hs ⊢
  refine ⟨by simp [hs.1], ?_⟩
  intro r hr
  obtain ⟨r0, hr0, rfl⟩ := List.mem_map.mp hr
  rw [specCompactRow_length]
  exact hs.2 r0 hr0

theorem boardShape_flip (b : Board) (hs : boardShape b = true) :
    boardShape (flipCells b) = true := by
  rw [boardShape_iff] at hs ⊢
  refine ⟨by simp [flipCells, hs.1], ?_⟩
  intro r hr
  obtain ⟨r0, hr0, rfl⟩ := List.mem_map.mp hr
  simp [hs.2 r0 hr0]

theorem boardShape_transpose (b : Board) (hs : boardShape b = true) :
    boardShape (transposeCells b) = true := by
  obtain ⟨r0, r1, r2, r3, rfl, h0, h1, h2, h3⟩ := shape_destruct b hs
  simp [transposeCells, minRowLen, boardShape, h0, h1, h2, h3, List.range_succ]

theorem tileWF_getD {r : List Tile} (h : ∀ t ∈ r, tileWF t = true) (i : Nat) :
    tileWF (r.getD i Tile.blank) = true := by
  rcases hx : r[i]? with _ | x
  · simp [List.getD_eq_getElem?_getD, hx]; rfl
  · have hm := h x (List.getElem?_mem hx)
    simp [List.getD_eq_getElem?_getD, hx, hm]

theorem wf_rows_flip {b : Board} (h : ∀ r ∈ b, ∀ t ∈ r, tileWF t = true) :
    ∀ r ∈ flipCells b, ∀ t ∈ r, tileWF t = true := by
  intro r hr t ht
  obtain ⟨r0, hr0, rfl⟩ := List.mem_map.mp hr
  exact h r0 hr0 t (List.mem_reverse.mp ht)

theorem wf_rows_transpose {b : Board} (h : ∀ r ∈ b, ∀ t ∈ r, tileWF t = true) :
    ∀ r ∈ transposeCells b, ∀ t ∈ r, tileWF t = true := by
  intro r hr t ht
  simp only [transposeCells, List.mem_map, List.mem_range] at hr
  obtain ⟨i, _, rfl⟩ := hr
  obtain ⟨row, hrow, rfl⟩ := List.mem_map.mp ht
  exact tileWF_getD (h row hrow) i

theorem noMerge11_nonblank_reverse {r : List Tile}
    (h : noMerge11 (nonblankOf r) = true) :
    noMerge11 (nonblankOf r.reverse) = true := by
  rw [nonblankOf, List.filter_reverse]
  exact noMerge11_reverse h

theorem noAdjEq_cols_flip {b : Board}
    (h : ∀ r ∈ b, noMerge11 (nonblankOf r) = true) :
    ∀ r ∈ flipCells b, noMerge11 (nonblankOf r) = true := by
  intro r hr
  obtain ⟨r0, hr0, rfl⟩ := List.mem_map.mp hr
  exact noMerge11_nonblank_reverse (h r0 hr0)

/-- The whole left transform, under representability of every merge. -/
theorem leftTransform_ok_of (b : Board) (hs : boardShape b = true)
    (hwf : ∀ r ∈ b, ∀ t ∈ r, tileWF t = true)
    (hm : ∀ r ∈ b, noMerge11 (nonblankOf r) = true) :
    leftTransform b = Except.ok (b.map specCompactRow) := by
  have hrows : mapRows transformRow b = Except.ok (b.map specCompactRow) :=
    mapRows_ok _ _ _ (fun r hr =>
      transformRow_eq_spec r
        (specScan_powers_le _
          (fun t ht => hwf r hr t (List.mem_of_mem_filter ht)) (hm r hr)))
  simp only [leftTransform, hrows, ok_bind]
  exact mkBoard_ok _ (boardShape_map_compact b hs)

/-! ## Claim C1 — the leftward compact-and-merge primitive -/

/-- C1 counterexample: the claim promises that the primitive *returns*
the compacted row for every 4-wide row, but on `[Power 11, Power 11,
Empty, Empty]` the row described by the claim contains a power-12 tile
and the primitive raises the tile range error instead of returning it. -/
theorem c1_left_primitive_counterexample :
    [Tile.power 11, Tile.power 11, Tile.blank, Tile.blank].length = 4 ∧
    transformRow [Tile.power 11, Tile.power 11, Tile.blank, Tile.blank] =
      Except.error "Needs to be 1 <= x <= 11 but is 12" ∧
    specCompactRow [Tile.power 11, Tile.power 11, Tile.blank, Tile.blank] =
      [Tile.power 12, Tile.blank, Tile.blank, Tile.blank] :=
  ⟨by decide, by rfl, by rfl⟩

/-- C1 (amended): for every 4-wide row, *provided every tile produced by
the claimed scan has power at most 11*, the leftward primitive returns
exactly the row obtained by extracting the non-empty tiles, merging each
equal-power pair into one tile of power `n + 1` in a single left-to-right
pass, and padding on the right with `Empty`; in particular powers
`[1, 1, 2]` yield `[2, 2, Empty]` and `[1, 1, 1, 1]` yield
`[2, 2, Empty, Empty]`. -/
theorem c1_left_primitive :
    (∀ row : List Tile, row.length = 4 →
      (∀ t ∈ specScan (nonblankOf row), powerOf t ≤ 11) →
      transformRow row = Except.ok (specCompactRow row)) ∧
    transformRow [Tile.power 1, Tile.power 1, Tile.power 2] =
      Except.ok [Tile.power 2, Tile.power 2, Tile.blank] ∧
    transformRow [Tile.power 1, Tile.power 1, Tile.power 1, Tile.power 1] =
      Except.ok [Tile.power 2, Tile.power 2, Tile.blank, Tile.blank] :=
  ⟨fun row _ h => transformRow_eq_spec row h, by rfl, by rfl⟩

/-- C1 witness: the amended statement applied to the concrete row
`[Power 1, Empty, Power 1, Power 2]`. -/
theorem c1_left_primitive_witness :
    [Tile.power 1, Tile.blank, Tile.power 1, Tile.power 2].length = 4 ∧
    transformRow [Tile.power 1, Tile.blank, Tile.power 1, Tile.power 2] =
      Except.ok (specCompactRow [Tile.power 1, Tile.blank, Tile.power 1, Tile.power 2]) :=
  ⟨by decide, c1_left_primitive.1 _ (by decide) (by decide)⟩

/-! ## Claim C2 — totality of the four directional transforms -/

/-- C2 counterexample: a well-formed board holding two adjacent equal
tiles of the maximum power 11 makes the left transform raise the tile
range error while constructing a power-12 tile, so the transforms are not
total on all well-formed boards. -/
theorem c2_totality_counterexample :
    boardWF [[Tile.power 11, Tile.power 11, Tile.blank, Tile.blank],
      [Tile.blank, Tile.blank, Tile.blank, Tile.blank],
      [Tile.blank, Tile.blank, Tile.blank, Tile.blank],
      [Tile.blank, Tile.blank, Tile.blank, Tile.blank]] = true ∧
    leftTransform [[Tile.power 11, Tile.power 11, Tile.blank, Tile.blank],
      [Tile.blank, Tile.blank, Tile.blank, Tile.blank],
      [Tile.blank, Tile.blank, Tile.blank, Tile.blank],
      [Tile.blank, Tile.blank, Tile.blank, Tile.blank]] =
      Except.error "Needs to be 1 <= x <= 11 but is 12" :=
  ⟨by decide, by rfl⟩

/-- C2 (amended): every directional transform succeeds on every
well-formed 4×4 board, *provided no row and no column has two adjacent
equal power-11 tiles in its non-blank subsequence* (such a pair would
make the merge construct a power-12 tile and fail with a range error). -/
theorem c2_totality :
    ∀ b : Board, boardWF b = true →
    (∀ r ∈ b, noMerge11 (nonblankOf r) = true) →
    (∀ c ∈ transposeCells b, noMerge11 (nonblankOf c) = true) →
    (∃ b1, leftTransform b = Except.ok b1) ∧
    (∃ b2, rightTransform b = Except.ok b2) ∧
    (∃ b3, upTransform b = Except.ok b3) ∧
    (∃ b4, downTransform b = Except.ok b4) := by
  intro b hwf hrows hcols
  simp only [boardWF, Bool.and_eq_true] at hwf
  obtain ⟨hs, hw⟩ := hwf
  replace hw : ∀ r ∈ b, ∀ t ∈ r, tileWF t = true := by
    simpa [List.all_eq_true] using hw
  refine ⟨⟨_, leftTransform_ok_of b hs hw hrows⟩, ?_, ?_, ?_⟩
  · -- right: flip, left, flip
    have h1 : flipLeftRight b = Except.ok (flipCells b) :=
      mkBoard_ok _ (boardShape_flip b hs)
    have h2 := leftTransform_ok_of (flipCells b) (boardShape_flip b hs)
      (wf_rows_flip hw) (noAdjEq_cols_flip hrows)
    have h3 : flipLeftRight ((flipCells b).map specCompactRow) =
        Except.ok (flipCells ((flipCells b).map specCompactRow)) :=
      mkBoard_ok _ (boardShape_flip _ (boardShape_map_compact _ (boardShape_flip b hs)))
    exact ⟨_, by simp only [rightTransform, h1, ok_bind, h2, h3]; rfl⟩
  · -- up: transpose, left, transpose
    have hst := boardShape_transpose b hs
    have h1 : transposeB b = Except.ok (transposeCells b) := mkBoard_ok _ hst
    have h2 := leftTransform_ok_of (transposeCells b) hst
      (wf_rows_transpose hw) hcols
    have h3 : transposeB ((transposeCells b).map specCompactRow) =
        Except.ok (transposeCells ((transposeCells b).map specCompactRow)) :=
      mkBoard_ok _ (boardShape_transpose _ (boardShape_map_compact _ hst))
    exact ⟨_, by simp only [upTransform, h1, ok_bind, h2, h3]; rfl⟩
  · -- down: transpose, flip, left, flip, transpose
    have hst := boardShape_transpose b hs
    have h1 : transposeB b = Except.ok (transposeCells b) := mkBoard_ok _ hst
    have h2 : flipLeftRight (transposeCells b) =
        Except.ok (flipCells (transposeCells b)) :=
      mkBoard_ok _ (boardShape_flip _ hst)
    have h3 := leftTransform_ok_of (flipCells (transposeCells b))
      (boardShape_flip _ hst)
      (wf_rows_flip (wf_rows_transpose hw)) (noAdjEq_cols_flip hcols)
    have hs4 := boardShape_map_compact _ (boardShape_flip _ hst)
    have h4 : flipLeftRight ((flipCells (transposeCells b)).map specCompactRow) =
        Except.ok (flipCells ((flipCells (transposeCells b)).map specCompactRow)) :=
      mkBoard_ok _ (boardShape_flip _ hs4)
    have h5 : transposeB (flipCells ((flipCells (transposeCells b)).map specCompactRow)) =
        Except.ok (transposeCells (flipCells ((flipCells (transposeCells b)).map specCompactRow))) :=
      mkBoard_ok _ (boardShape_transpose _ (boardShape_flip _ hs4))
    exact ⟨_, by simp only [downTransform, h1, ok_bind, h2, h3, h4, h5]; rfl⟩

/-- C2 witness: the amended statement applied to a concrete well-formed
board with a power-11 tile but no adjacent equal power-11 pair. -/
theorem c2_totality_witness :
    boardWF [[Tile.power 11, Tile.power 1, Tile.blank, Tile.blank],
      [Tile.power 2, Tile.blank, Tile.blank, Tile.blank],
      [Tile.blank, Tile.blank, Tile.blank, Tile.blank],
      [Tile.blank, Tile.blank, Tile.blank, Tile.blank]] = true ∧
    ((∃ b1, leftTransform [[Tile.power 11, Tile.power 1, Tile.blank, Tile.blank],
      [Tile.power 2, Tile.blank, Tile.blank, Tile.blank],
      [Tile.blank, Tile.blank, Tile.blank, Tile.blank],
      [Tile.blank, Tile.blank, Tile.blank, Tile.blank]] = Except.ok b1) ∧
    (∃ b2, rightTransform [[Tile.power 11, Tile.power 1, Tile.blank, Tile.blank],
      [Tile.power 2, Tile.blank, Tile.blank, Tile.blank],
      [Tile.blank, Tile.blank, Tile.blank, Tile.blank],
      [Tile.blank, Tile.blank, Tile.blank, Tile.blank]] = Except.ok b2) ∧
    (∃ b3, upTransform [[Tile.power 11, Tile.power 1, Tile.blank, Tile.blank],
      [Tile.power 2, Tile.blank, Tile.blank, Tile.blank],
      [Tile.blank, Tile.blank, Tile.blank, Tile.blank],
      [Tile.blank, Tile.blank, Tile.blank, Tile.blank]] = Except.ok b3) ∧
    (∃ b4, downTransform [[Tile.power 11, Tile.power 1, Tile.blank, Tile.blank],
      [Tile.power 2, Tile.blank, Tile.blank, Tile.blank],
      [Tile.blank, Tile.blank, Tile.blank, Tile.blank],
      [Tile.blank, Tile.blank, Tile.blank, Tile.blank]] = Except.ok b4)) :=
  ⟨by decide, c2_totality _ (by decide) (by decide) (by decide)⟩

/-! ## Claim C3 — spawn on a full board -/

/-- C3: on a full board the blank-location list is empty, and the spawn
transform fails by `random.choice` indexing into that empty selection
(an `IndexError`), not by a dedicated, explicit spawn-exhaustion error —
the source has no such check, contradicting the claim. -/
theorem c3_spawn_full_board_index_error :
    blankLocations [[Tile.power 1, Tile.power 2, Tile.power 1, Tile.power 2],
      [Tile.power 2, Tile.power 1, Tile.power 2, Tile.power 1],
      [Tile.power 1, Tile.power 2, Tile.power 1, Tile.power 2],
      [Tile.power 2, Tile.power 1, Tile.power 2, Tile.power 1]] = [] ∧
    spawnTransform [[Tile.power 1, Tile.power 2, Tile.power 1, Tile.power 2],
      [Tile.power 2, Tile.power 1, Tile.power 2, Tile.power 1],
      [Tile.power 1, Tile.power 2, Tile.power 1, Tile.power 2],
      [Tile.power 2, Tile.power 1, Tile.power 2, Tile.power 1]] 0 false =
      Except.error "IndexError: Cannot choose from an empty sequence" :=
  ⟨by rfl, by rfl⟩

/-! ## Claim C4 — `has_failed` reports fullness regardless of success -/

/-- C4: `has_failed` is true exactly when no cell is blank, with no
exclusion of the already-won case; on a full board that also holds a
power-11 tile both `has_succeeded` and `has_failed` are true. -/
theorem c4_hasFailed_iff_full :
    (∀ b : Board, hasFailed b = true ↔ ∀ r ∈ b, ∀ t ∈ r, t ≠ Tile.blank) ∧
    (hasSucceeded [[Tile.power 11, Tile.power 1, Tile.power 2, Tile.power 3],
      [Tile.power 1, Tile.power 2, Tile.power 3, Tile.power 4],
      [Tile.power 2, Tile.power 3, Tile.power 4, Tile.power 5],
      [Tile.power 3, Tile.power 4, Tile.power 5, Tile.power 6]] = true ∧
     hasFailed [[Tile.power 11, Tile.power 1, Tile.power 2, Tile.power 3],
      [Tile.power 1, Tile.power 2, Tile.power 3, Tile.power 4],
      [Tile.power 2, Tile.power 3, Tile.power 4, Tile.power 5],
      [Tile.power 3, Tile.power 4, Tile.power 5, Tile.power 6]] = true) := by
  refine ⟨?_, by decide, by decide⟩
  intro b
  simp [hasFailed]
  constructor
  · intro h r hr t ht he
    exact h r hr (he ▸ ht)
  · intro h x hx hmem
    exact h x hx Tile.blank hmem rfl

/-- C4 witness: the characterisation applied to a concrete full board. -/
theorem c4_hasFailed_iff_full_witness :
    hasFailed [[Tile.power 1, Tile.power 2, Tile.power 1, Tile.power 2],
      [Tile.power 2, Tile.power 1, Tile.power 2, Tile.power 1],
      [Tile.power 1, Tile.power 2, Tile.power 1, Tile.power 2],
      [Tile.power 2, Tile.power 1, Tile.power 2, Tile.power 1]] = true :=
  (c4_hasFailed_iff_full.1 _).mpr (by decide)

/-! ## Claim C5 — swiping an ended game -/

/-- C5: if the current board contains a power-11 tile or has no blank
cell (i.e. `has_ended` is true), `swipe` raises the already-ended error
for every direction.  The raise happens before any state change, so in
this embedding the caller's `Game` value is untouched: an `Except.error`
result carries no new state. -/
theorem c5_swipe_after_end (g : Game) (d : Direction) (k : Nat) (four : Bool)
    (h : (∃ r ∈ g.board, Tile.power 11 ∈ r) ∨
      (∀ r ∈ g.board, ∀ t ∈ r, t ≠ Tile.blank)) :
    swipe g d k four = Except.error "Game has already ended" := by
  have he : hasEnded g.board = true := by
    rcases h with ⟨r, hr, hm⟩ | h
    · simp [hasEnded, hasSucceeded]
      exact Or.inl ⟨r, hr, hm⟩
    · simp [hasEnded, hasFailed]
      exact Or.inr (fun r hr hmem => h r hr Tile.blank hmem rfl)
  simp [swipe, he]

/-- C5 witness: a nearly empty won board refuses every direction. -/
theorem c5_swipe_after_end_witness :
    swipe (Game.mk [[Tile.power 11, Tile.blank, Tile.blank, Tile.blank],
      [Tile.blank, Tile.blank, Tile.blank, Tile.blank],
      [Tile.blank, Tile.blank, Tile.blank, Tile.blank],
      [Tile.blank, Tile.blank, Tile.blank, Tile.blank]]) Direction.down 0 false =
      Except.error "Game has already ended" :=
  c5_swipe_after_end _ _ _ _ (by decide)

/-! ## Claim C6 — swipe spawns exactly when the board changed -/

/-- C6: on a non-ended game, when the directional transform returns a
board equal (by `Board.__eq__`) to the current one, `swipe` neither
spawns nor changes state; otherwise the new state is exactly the spawn
transform applied to the transformed board. -/
theorem c6_swipe_noop_or_spawn (g : Game) (d : Direction) (k : Nat)
    (four : Bool) (next : Board) (hend : hasEnded g.board = false)
    (ht : dirTransform d g.board = Except.ok next) :
    (boardEq next g.board = true → swipe g d k four = Except.ok g) ∧
    (boardEq next g.board = false →
      swipe g d k four =
        Except.map (fun b => Game.mk b) (spawnTransform next k four)) := by
  constructor <;> intro hb
  · simp [swipe, hend, ht, ok_bind, hb]
  · simp only [swipe, hend, Bool.false_eq_true, if_false, ht, ok_bind, hb]
    cases hsp : spawnTransform next k four with
    | error e => rfl
    | ok b => rfl

/-- C6 witness: a left swipe on a board whose left transform is a no-op
leaves the game state unchanged. -/
theorem c6_swipe_noop_or_spawn_witness :
    swipe (Game.mk [[Tile.power 1, Tile.blank, Tile.blank, Tile.blank],
      [Tile.blank, Tile.blank, Tile.blank, Tile.blank],
      [Tile.blank, Tile.blank, Tile.blank, Tile.blank],
      [Tile.blank, Tile.blank, Tile.blank, Tile.blank]]) Direction.left 0 false =
      Except.ok (Game.mk [[Tile.power 1, Tile.blank, Tile.blank, Tile.blank],
      [Tile.blank, Tile.blank, Tile.blank, Tile.blank],
      [Tile.blank, Tile.blank, Tile.blank, Tile.blank],
      [Tile.blank, Tile.blank, Tile.blank, Tile.blank]]) :=
  (c6_swipe_noop_or_spawn _ Direction.left 0 false _ (by decide) (by rfl)).1
    (by decide)

/-! ## Claim C8 — board equality by zipping -/

theorem decide_eq_specTileEq (x y : Tile) : decide (x = y) = specTileEq x y := by
  cases x <;> cases y <;> simp [specTileEq]

theorem zipAll_comm (l1 l2 : List Tile) :
    (l1.zip l2).all (fun p => decide (p.1 = p.2)) =
    (l2.zip l1).all (fun p => decide (p.1 = p.2)) := by
  induction l1 generalizing l2 with
  | nil => cases l2 <;> rfl
  | cons x xs ih =>
    cases l2 with
    | nil => rfl
    | cons y ys =>
      simp only [List.zip_cons_cons, List.all_cons, ih ys]
      congr 1
      exact decide_eq_decide.mpr eq_comm

/-- C8 counterexample to the asymmetry clause: a 4×4 board and the same
board with one extra row compare equal in *both* orders — the zip
truncates to the shorter flattened sequence whichever operand is longer,
so the comparison is symmetric, not asymmetric, on mismatched shapes. -/
theorem c8_board_equality_counterexample :
    boardEq [[Tile.power 1, Tile.power 2, Tile.power 3, Tile.power 4],
      [Tile.power 5, Tile.power 6, Tile.power 7, Tile.power 8],
      [Tile.blank, Tile.blank, Tile.blank, Tile.blank],
      [Tile.power 1, Tile.power 2, Tile.power 3, Tile.power 4]]
      [[Tile.power 1, Tile.power 2, Tile.power 3, Tile.power 4],
      [Tile.power 5, Tile.power 6, Tile.power 7, Tile.power 8],
      [Tile.blank, Tile.blank, Tile.blank, Tile.blank],
      [Tile.power 1, Tile.power 2, Tile.power 3, Tile.power 4],
      [Tile.power 9, Tile.power 9, Tile.power 9, Tile.power 9]] = true ∧
    boardEq [[Tile.power 1, Tile.power 2, Tile.power 3, Tile.power 4],
      [Tile.power 5, Tile.power 6, Tile.power 7, Tile.power 8],
      [Tile.blank, Tile.blank, Tile.blank, Tile.blank],
      [Tile.power 1, Tile.power 2, Tile.power 3, Tile.power 4],
      [Tile.power 9, Tile.power 9, Tile.power 9, Tile.power 9]]
      [[Tile.power 1, Tile.power 2, Tile.power 3, Tile.power 4],
      [Tile.power 5, Tile.power 6, Tile.power 7, Tile.power 8],
      [Tile.blank, Tile.blank, Tile.blank, Tile.blank],
      [Tile.power 1, Tile.power 2, Tile.power 3, Tile.power 4]] = true :=
  ⟨by decide, by decide⟩

/-- C8 (amended): board equality is the zip of the two flattened cell
sequences under tile equality (both empty, or both powers with the same
exponent; a blank and a power never equal), trailing cells of the longer
sequence being ignored; the truncation applies to whichever operand is
longer, and the comparison is symmetric. -/
theorem c8_board_equality :
    (∀ a b : Board, boardEq a b =
      (a.flatten.zip b.flatten).all (fun p => specTileEq p.1 p.2)) ∧
    (∀ n : Nat, specTileEq Tile.blank (Tile.power n) = false ∧
      specTileEq (Tile.power n) Tile.blank = false) ∧
    (∀ a b : Board, boardEq a b = boardEq b a) := by
  refine ⟨?_, fun n => ⟨rfl, rfl⟩, fun a b => zipAll_comm _ _⟩
  intro a b
  unfold boardEq
  congr 1
  funext p
  exact decide_eq_specTileEq p.1 p.2

/-! ## Claim C9 — the derived directions as compositions -/

/-- The code's zip-based transpose is the spec's index-swap transpose on
every 4×4 board. -/
theorem transposeCells_eq_spec (b : Board) (hs : boardShape b = true) :
    transposeCells b = specTranspose b := by
  obtain ⟨r0, r1, r2, r3, rfl, h0, h1, h2, h3⟩ := shape_destruct b hs
  obtain ⟨a0, a1, a2, a3, rfl⟩ := len4_destruct r0 h0
  obtain ⟨b0, b1, b2, b3, rfl⟩ := len4_destruct r1 h1
  obtain ⟨c0, c1, c2, c3, rfl⟩ := len4_destruct r2 h2
  obtain ⟨d0, d1, d2, d3, rfl⟩ := len4_destruct r3 h3
  rfl

/-- A successful left transform always returns a 4×4 board (its result
passed through the board constructor). -/
theorem leftTransform_ok_shape {b y : Board} (h : leftTransform b = Except.ok y) :
    boardShape y = true := by
  unfold leftTransform at h
  cases hm : mapRows transformRow b with
  | error e => rw [hm, error_bind] at h; exact absurd h (by simp)
  | ok rows =>
    rw [hm, ok_bind] at h
    obtain ⟨rfl, hsh⟩ := mkBoard_eq_ok h
    exact hsh

/-- C9: on every 4×4 board, `Right` is reflect–Left–reflect, `Up` is
transpose–Left–transpose, and `Down` is
transpose–reflect–Left–reflect–transpose, with reflection and
transposition as the spec describes them (reverse each row; swap rows
and columns).  Errors of the leftward primitive propagate identically
on both sides. -/
theorem c9_directional_composition (b : Board) (hs : boardShape b = true) :
    rightTransform b = Except.map specReflectH (leftTransform (specReflectH b)) ∧
    upTransform b = Except.map specTranspose (leftTransform (specTranspose b)) ∧
    downTransform b =
      Except.map (fun x => specTranspose (specReflectH x))
        (leftTransform (specReflectH (specTranspose b))) := by
  refine ⟨?_, ?_, ?_⟩
  · have hfb : flipLeftRight b = Except.ok (flipCells b) :=
      mkBoard_ok _ (boardShape_flip b hs)
    have he1 : specReflectH b = flipCells b := rfl
    rw [he1]
    cases hl : leftTransform (flipCells b) with
    | error e => simp only [rightTransform, hfb, ok_bind, hl, error_bind]; rfl
    | ok y =>
      have hy := leftTransform_ok_shape hl
      have hfy : flipLeftRight y = Except.ok (flipCells y) :=
        mkBoard_ok _ (boardShape_flip y hy)
      simp only [rightTransform, hfb, ok_bind, hl, hfy]
      rfl
  · have htb : transposeB b = Except.ok (transposeCells b) :=
      mkBoard_ok _ (boardShape_transpose b hs)
    rw [show specTranspose b = transposeCells b from (transposeCells_eq_spec b hs).symm]
    cases hl : leftTransform (transposeCells b) with
    | error e => simp only [upTransform, htb, ok_bind, hl, error_bind]; rfl
    | ok y =>
      have hy := leftTransform_ok_shape hl
      have hty : transposeB y = Except.ok (transposeCells y) :=
        mkBoard_ok _ (boardShape_transpose y hy)
      simp only [upTransform, htb, ok_bind, hl, hty]
      rw [transposeCells_eq_spec y hy]
      rfl
  · have htb : transposeB b = Except.ok (transposeCells b) :=
      mkBoard_ok _ (boardShape_transpose b hs)
    have hft : flipLeftRight (transposeCells b) =
        Except.ok (flipCells (transposeCells b)) :=
      mkBoard_ok _ (boardShape_flip _ (boardShape_transpose b hs))
    rw [show specTranspose b = transposeCells b from (transposeCells_eq_spec b hs).symm]
    rw [show specReflectH (transposeCells b) = flipCells (transposeCells b) from rfl]
    cases hl : leftTransform (flipCells (transposeCells b)) with
    | error e =>
      simp only [downTransform, htb, ok_bind, hft, hl, error_bind]; rfl
    | ok y =>
      have hy := leftTransform_ok_shape hl
      have hfy : flipLeftRight y = Except.ok (flipCells y) :=
        mkBoard_ok _ (boardShape_flip y hy)
      have hty : transposeB (flipCells y) =
          Except.ok (transposeCells (flipCells y)) :=
        mkBoard_ok _ (boardShape_transpose _ (boardShape_flip y hy))
      simp only [downTransform, htb, ok_bind, hft, hl, hfy, hty]
      rw [show transposeCells (flipCells y) = specTranspose (flipCells y) from
        transposeCells_eq_spec _ (boardShape_flip y hy)]
      rfl

/-- C9 witness: the composition identities at a concrete board. -/
theorem c9_directional_composition_witness :
    rightTransform [[Tile.power 1, Tile.power 1, Tile.power 2, Tile.blank],
      [Tile.blank, Tile.power 3, Tile.blank, Tile.power 3],
      [Tile.power 4, Tile.blank, Tile.blank, Tile.power 4],
      [Tile.blank, Tile.blank, Tile.blank, Tile.power 5]] =
      Except.map specReflectH (leftTransform (specReflectH
        [[Tile.power 1, Tile.power 1, Tile.power 2, Tile.blank],
        [Tile.blank, Tile.power 3, Tile.blank, Tile.power 3],
        [Tile.power 4, Tile.blank, Tile.blank, Tile.power 4],
        [Tile.blank, Tile.blank, Tile.blank, Tile.power 5]])) :=
  (c9_directional_composition _ (by decide)).1

/-! ## Fixed-point machinery for claim C10 -/

theorem foldl_min_le_init (rs : Board) (init : Nat) :
    rs.foldl (fun m row => min m row.length) init ≤ init := by
  induction rs generalizing init with
  | nil => simp
  | cons r rs ih =>
    simp only [List.foldl_cons]
    exact le_trans (ih _) (min_le_left _ _)

theorem foldl_min_le_mem (rs : Board) (init : Nat) {r : List Tile}
    (hr : r ∈ rs) :
    rs.foldl (fun m row => min m row.length) init ≤ r.length := by
  induction rs generalizing init with
  | nil => cases hr
  | cons r0 rs ih =>
    rcases List.mem_cons.mp hr with rfl | hr'
    · simp only [List.foldl_cons]
      exact le_trans (foldl_min_le_init _ _) (min_le_right _ _)
    · simp only [List.foldl_cons]
      exact ih _ hr'

theorem minRowLen_le {b : Board} {r : List Tile} (hr : r ∈ b) :
    minRowLen b ≤ r.length := by
  cases b with
  | nil => cases hr
  | cons r0 rs =>
    rcases List.mem_cons.mp hr with rfl | hr'
    · exact foldl_min_le_init rs r.length
    · exact foldl_min_le_mem rs r0.length hr'

theorem full_cols_of_full {b : Board}
    (hfull : ∀ r ∈ b, ∀ t ∈ r, t ≠ Tile.blank) :
    ∀ c ∈ transposeCells b, ∀ t ∈ c, t ≠ Tile.blank := by
  intro c hc t ht
  simp only [transposeCells, List.mem_map, List.mem_range] at hc
  obtain ⟨i, hi, rfl⟩ := hc
  obtain ⟨row, hrow, rfl⟩ := List.mem_map.mp ht
  have hlt : i < row.length := lt_of_lt_of_le hi (minRowLen_le hrow)
  rw [List.getD_eq_getElem _ _ hlt]
  exact hfull row hrow _ (List.getElem_mem hlt)

theorem flipCells_flipCells (b : Board) : flipCells (flipCells b) = b := by
  simp [flipCells, List.map_map, Function.comp_def, List.reverse_reverse]

theorem transposeCells_involutive (b : Board) (hs : boardShape b = true) :
    transposeCells (transposeCells b) = b := by
  obtain ⟨r0, r1, r2, r3, rfl, h0, h1, h2, h3⟩ := shape_destruct b hs
  obtain ⟨a0, a1, a2, a3, rfl⟩ := len4_destruct r0 h0
  obtain ⟨b0, b1, b2, b3, rfl⟩ := len4_destruct r1 h1
  obtain ⟨c0, c1, c2, c3, rfl⟩ := len4_destruct r2 h2
  obtain ⟨d0, d1, d2, d3, rfl⟩ := len4_destruct r3 h3
  rfl

theorem leftTransform_fixed (b : Board) (hs : boardShape b = true)
    (hfull : ∀ r ∈ b, ∀ t ∈ r, t ≠ Tile.blank)
    (hadj : ∀ r ∈ b, noAdjEq r = true) :
    leftTransform b = Except.ok b := by
  have h : mapRows transformRow b = Except.ok (b.map id) :=
    mapRows_ok _ id b (fun r hr => by
      simpa using transformRow_fixed r (hfull r hr) (hadj r hr))
  rw [List.map_id] at h
  simp only [leftTransform, h, ok_bind]
  exact mkBoard_ok b hs

/-! ## Claim C10 — no-op boards are fixed points -/

/-- C10: a well-formed board with no blank cell and no two adjacent
equal tiles in any row or any column is a (structural, hence
`Board.__eq__`) fixed point of all four directional transforms. -/
theorem c10_noop_fixed_point (b : Board) (hwf : boardWF b = true)
    (hfull : ∀ r ∈ b, ∀ t ∈ r, t ≠ Tile.blank)
    (hrows : ∀ r ∈ b, noAdjEq r = true)
    (hcols : ∀ c ∈ transposeCells b, noAdjEq c = true) :
    leftTransform b = Except.ok b ∧ rightTransform b = Except.ok b ∧
    upTransform b = Except.ok b ∧ downTransform b = Except.ok b := by
  have hs : boardShape b = true := by
    simp only [boardWF, Bool.and_eq_true] at hwf
    exact hwf.1
  have hsF := boardShape_flip b hs
  have hsT := boardShape_transpose b hs
  have hfull_flip : ∀ r ∈ flipCells b, ∀ t ∈ r, t ≠ Tile.blank := by
    intro r hr t ht
    obtain ⟨r0, hr0, rfl⟩ := List.mem_map.mp hr
    exact hfull r0 hr0 t (List.mem_reverse.mp ht)
  have hadj_flip : ∀ r ∈ flipCells b, noAdjEq r = true := by
    intro r hr
    obtain ⟨r0, hr0, rfl⟩ := List.mem_map.mp hr
    exact noAdjEq_reverse (hrows r0 hr0)
  have hfullT := full_cols_of_full hfull
  have hfullTF : ∀ r ∈ flipCells (transposeCells b), ∀ t ∈ r, t ≠ Tile.blank := by
    intro r hr t ht
    obtain ⟨r0, hr0, rfl⟩ := List.mem_map.mp hr
    exact hfullT r0 hr0 t (List.mem_reverse.mp ht)
  have hadjTF : ∀ r ∈ flipCells (transposeCells b), noAdjEq r = true := by
    intro r hr
    obtain ⟨r0, hr0, rfl⟩ := List.mem_map.mp hr
    exact noAdjEq_reverse (hcols r0 hr0)
  have hTT := transposeCells_involutive b hs
  refine ⟨leftTransform_fixed b hs hfull hrows, ?_, ?_, ?_⟩
  · -- right
    have h1 : flipLeftRight b = Except.ok (flipCells b) := mkBoard_ok _ hsF
    have h2 : leftTransform (flipCells b) = Except.ok (flipCells b) :=
      leftTransform_fixed _ hsF hfull_flip hadj_flip
    have h3 : flipLeftRight (flipCells b) = Except.ok b := by
      unfold flipLeftRight
      rw [flipCells_flipCells]
      exact mkBoard_ok b hs
    simp only [rightTransform, h1, ok_bind, h2, h3]
  · -- up
    have h1 : transposeB b = Except.ok (transposeCells b) := mkBoard_ok _ hsT
    have h2 : leftTransform (transposeCells b) = Except.ok (transposeCells b) :=
      leftTransform_fixed _ hsT hfullT hcols
    have h3 : transposeB (transposeCells b) = Except.ok b := by
      unfold transposeB
      rw [hTT]
      exact mkBoard_ok b hs
    simp only [upTransform, h1, ok_bind, h2, h3]
  · -- down
    have h1 : transposeB b = Except.ok (transposeCells b) := mkBoard_ok _ hsT
    have h2 : flipLeftRight (transposeCells b) =
        Except.ok (flipCells (transposeCells b)) :=
      mkBoard_ok _ (boardShape_flip _ hsT)
    have h3 : leftTransform (flipCells (transposeCells b)) =
        Except.ok (flipCells (transposeCells b)) :=
      leftTransform_fixed _ (boardShape_flip _ hsT) hfullTF hadjTF
    have h4 : flipLeftRight (flipCells (transposeCells b)) =
        Except.ok (transposeCells b) := by
      unfold flipLeftRight
      rw [flipCells_flipCells]
      exact mkBoard_ok _ hsT
    have h5 : transposeB (transposeCells b) = Except.ok b := by
      unfold transposeB
      rw [hTT]
      exact mkBoard_ok b hs
    simp only [downTransform, h1, ok_bind, h2, h3, h4, h5]

/-- C10 witness: the alternating full board is fixed by all four
transforms. -/
theorem c10_noop_fixed_point_witness :
    leftTransform [[Tile.power 1, Tile.power 2, Tile.power 1, Tile.power 2],
      [Tile.power 2, Tile.power 1, Tile.power 2, Tile.power 1],
      [Tile.power 1, Tile.power 2, Tile.power 1, Tile.power 2],
      [Tile.power 2, Tile.power 1, Tile.power 2, Tile.power 1]] =
      Except.ok [[Tile.power 1, Tile.power 2, Tile.power 1, Tile.power 2],
      [Tile.power 2, Tile.power 1, Tile.power 2, Tile.power 1],
      [Tile.power 1, Tile.power 2, Tile.power 1, Tile.power 2],
      [Tile.power 2, Tile.power 1, Tile.power 2, Tile.power 1]] ∧
    downTransform [[Tile.power 1, Tile.power 2, Tile.power 1, Tile.power 2],
      [Tile.power 2, Tile.power 1, Tile.power 2, Tile.power 1],
      [Tile.power 1, Tile.power 2, Tile.power 1, Tile.power 2],
      [Tile.power 2, Tile.power 1, Tile.power 2, Tile.power 1]] =
      Except.ok [[Tile.power 1, Tile.power 2, Tile.power 1, Tile.power 2],
      [Tile.power 2, Tile.power 1, Tile.power 2, Tile.power 1],
      [Tile.power 1, Tile.power 2, Tile.power 1, Tile.power 2],
      [Tile.power 2, Tile.power 1, Tile.power 2, Tile.power 1]] :=
  ⟨(c10_noop_fixed_point _ (by decide) (by decide) (by decide) (by decide)).1,
   (c10_noop_fixed_point _ (by decide) (by decide) (by decide) (by decide)).2.2.2⟩


/-! ## Claim C7 — the spawn frame effect -/

theorem getD_of_getElem? {α : Type} {l : List α} {i : Nat} {a : α} (d : α)
    (h : l[i]? = some a) : l.getD i d = a := by
  rw [List.getD_eq_getElem?_getD, h]; rfl

theorem choice_mem {α : Type} {l : List α} (hne : l ≠ []) (k : Nat) :
    ∃ x ∈ l, choice l k = Except.ok x := by
  cases l with
  | nil => exact absurd rfl hne
  | cons a as =>
    refine ⟨(a :: as).getD (k % (a :: as).length) a, ?_, rfl⟩
    have hlt : k % (a :: as).length < (a :: as).length :=
      Nat.mod_lt _ (by simp)
    rw [List.getD_eq_getElem _ _ hlt]
    exact List.getElem_mem hlt

theorem filter_len_set_blank (r : List Tile) (i : Nat) (t : Tile)
    (hi : r[i]? = some Tile.blank) (ht : t ≠ Tile.blank) :
    ((r.set i t).filter (fun x => !decide (x = Tile.blank))).length =
      (r.filter (fun x => !decide (x = Tile.blank))).length + 1 := by
  induction r generalizing i with
  | nil => simp at hi
  | cons a as ih =>
    cases i with
    | zero =>
      simp only [List.getElem?_cons_zero, Option.some.injEq] at hi
      subst hi
      simp [List.set_cons_zero, List.filter_cons, ht]
    | succ n =>
      simp only [List.getElem?_cons_succ] at hi
      have hstep : (a :: as).set (n + 1) t = a :: as.set n t := rfl
      rw [hstep]
      by_cases hpa : a = Tile.blank
      · simp [List.filter_cons, hpa, ih n hi]
      · simp [List.filter_cons, hpa, ih n hi]

theorem nonBlankCount_setCell {b : Board} {j i : Nat} {row : List Tile}
    (t : Tile) (hj : b[j]? = some row) (hi : row[i]? = some Tile.blank)
    (ht : t ≠ Tile.blank) :
    nonBlankCount (setCell b j i t) = nonBlankCount b + 1 := by
  induction b generalizing j with
  | nil => simp at hj
  | cons r rs ih =>
    cases j with
    | zero =>
      simp only [List.getElem?_cons_zero, Option.some.injEq] at hj
      subst hj
      have hstep : setCell (r :: rs) 0 i t = (r.set i t) :: rs := rfl
      rw [hstep]
      simp only [nonBlankCount, List.flatten_cons, List.filter_append,
        List.length_append]
      rw [filter_len_set_blank r i t hi ht]
      omega
    | succ n =>
      simp only [List.getElem?_cons_succ] at hj
      have hstep : setCell (r :: rs) (n + 1) i t = r :: setCell rs n i t := rfl
      rw [hstep]
      simp only [nonBlankCount, List.flatten_cons, List.filter_append,
        List.length_append]
      have := ih hj
      simp only [nonBlankCount] at this
      omega



theorem boardShape_setCell {b : Board} {j : Nat} {row : List Tile}
    (i : Nat) (t : Tile) (hs : boardShape b = true) (hj : b[j]? = some row) :
    boardShape (setCell b j i t) = true := by
  rw [boardShape_iff] at hs ⊢
  refine ⟨by simp [setCell, hs.1], ?_⟩
  intro r hr
  simp only [setCell] at hr
  rcases List.mem_or_eq_of_mem_set hr with h | h
  · exact hs.2 r h
  · subst h
    rw [List.length_set, getD_of_getElem? [] hj]
    exact hs.2 row (List.getElem?_mem hj)

theorem cellAt_setCell_self {b : Board} {j i : Nat} {row : List Tile}
    (t : Tile) (hj : b[j]? = some row) (hi : i < row.length) :
    cellAt (setCell b j i t) j i = t := by
  have hjlt : j < b.length := (List.getElem?_eq_some.mp hj).1
  have hrow : b.getD j [] = row := getD_of_getElem? [] hj
  unfold cellAt setCell
  rw [hrow]
  have h1 : (b.set j (row.set i t))[j]? = some (row.set i t) :=
    List.getElem?_set_self hjlt
  rw [getD_of_getElem? [] h1]
  have h2 : (row.set i t)[i]? = some t := by
    rw [List.getElem?_set_self]
    exact hi
  exact getD_of_getElem? Tile.blank h2

theorem cellAt_setCell_other {b : Board} (j i j' i' : Nat) (t : Tile)
    (h : ¬(j' = j ∧ i' = i)) :
    cellAt (setCell b j i t) j' i' = cellAt b j' i' := by
  by_cases hjj : j' = j
  · subst hjj
    have hii : i' ≠ i := fun he => h ⟨rfl, he⟩
    by_cases hjlt : j' < b.length
    · unfold cellAt setCell
      have h1 : (b.set j' ((b.getD j' []).set i t))[j']? =
          some ((b.getD j' []).set i t) := List.getElem?_set_self hjlt
      rw [getD_of_getElem? [] h1]
      simp only [List.getD_eq_getElem?_getD]
      rw [List.getElem?_set_ne (fun he => hii he.symm)]
    · have : b.set j' ((b.getD j' []).set i t) = b :=
        List.set_eq_of_length_le (Nat.le_of_not_lt hjlt)
      unfold cellAt setCell
      rw [this]
  · unfold cellAt setCell
    simp only [List.getD_eq_getElem?_getD]
    rw [List.getElem?_set_ne (fun he => hjj he.symm)]



theorem mem_blankLocations {b : Board} {j i : Nat} :
    (j, i) ∈ blankLocations b ↔
      ∃ row, b[j]? = some row ∧ row[i]? = some Tile.blank := by
  constructor
  · intro h
    simp only [blankLocations, List.mem_flatten, List.mem_map] at h
    obtain ⟨l, ⟨⟨j', row⟩, hrow, rfl⟩, hmem⟩ := h
    simp only [List.mem_filterMap, List.mem_enum_iff_getElem?] at hmem
    obtain ⟨⟨i', t⟩, hit, hsome⟩ := hmem
    by_cases hbt : t = Tile.blank
    · rw [if_pos hbt] at hsome
      injection hsome with hpair
      rw [Prod.mk.injEq] at hpair
      obtain ⟨rfl, rfl⟩ := hpair
      simp only [List.mem_enum_iff_getElem?] at hrow
      exact ⟨row, hrow, hbt ▸ hit⟩
    · rw [if_neg hbt] at hsome
      cases hsome
  · rintro ⟨row, hrow, hi⟩
    simp only [blankLocations, List.mem_flatten, List.mem_map]
    refine ⟨_, ⟨(j, row), ?_, rfl⟩, ?_⟩
    · simpa [List.mem_enum_iff_getElem?] using hrow
    · simp only [List.mem_filterMap, List.mem_enum_iff_getElem?]
      exact ⟨(i, Tile.blank), by simpa using hi, by simp⟩

/-- C7: spawning on a board with at least one blank cell succeeds,
writes `TilePower(1)` or `TilePower(2)` at a previously blank cell,
raises the non-blank cell count by exactly one, and leaves every other
cell unchanged. -/
theorem c7_spawn_frame (b : Board) (k : Nat) (four : Bool)
    (hs : boardShape b = true) (hb : ∃ r ∈ b, Tile.blank ∈ r) :
    ∃ j i b', spawnTransform b k four = Except.ok b' ∧
      cellAt b j i = Tile.blank ∧
      cellAt b' j i = getNewTile four ∧
      (getNewTile four = Tile.power 1 ∨ getNewTile four = Tile.power 2) ∧
      nonBlankCount b' = nonBlankCount b + 1 ∧
      ∀ j' i', ¬(j' = j ∧ i' = i) → cellAt b' j' i' = cellAt b j' i' := by
  obtain ⟨r, hr, hbr⟩ := hb
  obtain ⟨j0, hj0⟩ := List.mem_iff_getElem?.mp hr
  obtain ⟨i0, hi0⟩ := List.mem_iff_getElem?.mp hbr
  have hne : blankLocations b ≠ [] :=
    List.ne_nil_of_mem (mem_blankLocations.mpr ⟨r, hj0, hi0⟩)
  obtain ⟨⟨j, i⟩, hmem, hch⟩ := choice_mem hne k
  obtain ⟨row, hj, hi⟩ := mem_blankLocations.mp hmem
  have hilt : i < row.length := (List.getElem?_eq_some.mp hi).1
  have hnb : getNewTile four ≠ Tile.blank := by
    cases four <;> simp [getNewTile]
  refine ⟨j, i, setCell b j i (getNewTile four), ?_, ?_, ?_, ?_, ?_, ?_⟩
  · unfold spawnTransform
    rw [hch, ok_bind]
    exact mkBoard_ok _ (boardShape_setCell i (getNewTile four) hs hj)
  · unfold cellAt
    rw [getD_of_getElem? [] hj, getD_of_getElem? Tile.blank hi]
  · exact cellAt_setCell_self (getNewTile four) hj hilt
  · cases four
    · exact Or.inl rfl
    · exact Or.inr rfl
  · exact nonBlankCount_setCell _ hj hi hnb
  · intro j' i' hne'
    exact cellAt_setCell_other j i j' i' _ hne'

/-- C7 witness: the frame conditions at a concrete board with blanks. -/
theorem c7_spawn_frame_witness :
    ∃ j i b', spawnTransform [[Tile.power 3, Tile.blank, Tile.blank, Tile.blank],
      [Tile.blank, Tile.blank, Tile.blank, Tile.blank],
      [Tile.blank, Tile.blank, Tile.blank, Tile.power 4],
      [Tile.blank, Tile.blank, Tile.blank, Tile.blank]] 5 true = Except.ok b' ∧
      cellAt [[Tile.power 3, Tile.blank, Tile.blank, Tile.blank],
        [Tile.blank, Tile.blank, Tile.blank, Tile.blank],
        [Tile.blank, Tile.blank, Tile.blank, Tile.power 4],
        [Tile.blank, Tile.blank, Tile.blank, Tile.blank]] j i = Tile.blank ∧
      cellAt b' j i = getNewTile true ∧
      (getNewTile true = Tile.power 1 ∨ getNewTile true = Tile.power 2) ∧
      nonBlankCount b' = nonBlankCount
        [[Tile.power 3, Tile.blank, Tile.blank, Tile.blank],
        [Tile.blank, Tile.blank, Tile.blank, Tile.blank],
        [Tile.blank, Tile.blank, Tile.blank, Tile.power 4],
        [Tile.blank, Tile.blank, Tile.blank, Tile.blank]] + 1 ∧
      ∀ j' i', ¬(j' = j ∧ i' = i) → cellAt b' j' i' = cellAt
        [[Tile.power 3, Tile.blank, Tile.blank, Tile.blank],
        [Tile.blank, Tile.blank, Tile.blank, Tile.blank],
        [Tile.blank, Tile.blank, Tile.blank, Tile.power 4],
        [Tile.blank, Tile.blank, Tile.blank, Tile.blank]] j' i' :=
  c7_spawn_frame _ 5 true (by decide) ⟨[Tile.power 3, Tile.blank, Tile.blank, Tile.blank], by decide, by decide⟩

end TwentyFortyEight
